import Mathlib

/-!
Shallow embedding of `node/modules/minermanage/minermanage.go` from the
venus-miner repository: a miner-address registry holding an in-memory list
of `MinerInfo` records mirrored into a key-value datastore under two keys
(`miner-actors` for the serialized list, `default-actor` for the default
address).  Effectful datastore calls are embedded by passing their outcome
explicitly: `putOk : Bool` tells whether a `da.Put` succeeds, and
`getFault : Bool` injects a non-NotFound error into a `da.Get`.
-/

namespace VenusMiner

/-- A miner address.  The registry compares addresses only through their
canonical string rendering (`addr.String()` in the source); `raw`
distinguishes underlying representations that the registry never inspects. -/
structure Address where
  str : String
  raw : Nat
deriving DecidableEq

/-- Connection descriptor carried twice by each record (`Sealer` and
`Wallet` in `dtypes.MinerInfo`): an endpoint string and a credential
token, either possibly empty. -/
structure APIInfo where
  listenAPI : String
  token : String
deriving DecidableEq

/-- A per-miner record (`dtypes.MinerInfo`): the address key, the optional
free-text labels `id` and `name`, and the two connection descriptors.
Field shape per spec section 6 (the `dtypes` package is outside the
excerpt; only these fields are referenced by `minermanage.go`). -/
structure MinerInfo where
  addr : Address
  id : String
  name : String
  sealer : APIInfo
  wallet : APIInfo
deriving DecidableEq

/-- A value stored in the datastore: either the JSON-encoded record list
(what `json.Marshal(miners)` produces) or the byte encoding of a single
address (what `addr.Bytes()` produces). -/
inductive Blob where
  | minersBlob : List MinerInfo → Blob
  | addrBlob : Address → Blob
deriving DecidableEq

/-- Errors surfaced by the registry operations. -/
inductive Err where
  | decodeError
  | putError
  | ioError
  | noDefault
deriving DecidableEq

/-- Datastore contents: an association list from key to blob; a write
conses in front, a read takes the first binding. -/
abbrev Store := List (String × Blob)

/-- Read a key from the datastore contents (`ds.Get` when it does not
fault): `none` models `datastore.ErrNotFound`. -/
def dsGetOpt : Store → String → Option Blob
  | [], _ => none
  | (k, v) :: rest, key => if k = key then some v else dsGetOpt rest key

/-- Overwrite a key in the datastore contents (a successful `ds.Put`). -/
def dsPut (st : Store) (k : String) (v : Blob) : Store :=
  (k, v) :: st

/-- The whole registry state: the in-memory list `m.miners` plus the
datastore contents `m.da`. -/
structure State where
  miners : List MinerInfo
  store : Store
deriving DecidableEq

/-- `const actorKey = "miner-actors"`. -/
def actorKey : String := "miner-actors"

/-- `const defaultKey = "default-actor"`. -/
def defaultKey : String := "default-actor"

/-- `json.Unmarshal(addrBytes, &miners)`: succeeds exactly on a blob that
is a serialized record list. -/
def unmarshalMiners : Blob → Except Err (List MinerInfo)
  | .minersBlob l => .ok l
  | .addrBlob _ => .error .decodeError

/-- `address.NewFromBytes(bytes)`: succeeds exactly on a blob that is an
address encoding. -/
def newFromBytes : Blob → Except Err Address
  | .addrBlob a => .ok a
  | .minersBlob _ => .error .decodeError

/-- `NewMinerManger(ds)`: read the record-list key; a non-NotFound get
error (`getFault`) aborts, an absent key yields the empty list, a present
key is unmarshalled (failure aborts with a decode error). -/
def NewMinerManger (getFault : Bool) (store : Store) : Except Err (List MinerInfo) :=
  if getFault then .error .ioError
  else
    match dsGetOpt store actorKey with
    | none => .ok []
    | some b => unmarshalMiners b

/-- `(m *MinerManager) Has(addr)`: linear scan comparing canonical string
forms. -/
def Has (miners : List MinerInfo) (addr : Address) : Bool :=
  miners.any (fun miner => miner.addr.str == addr.str)

/-- `(m *MinerManager) Put(miner)`: no-op returning nil when the address
is already present; otherwise append, marshal (total for this data),
write the list key (outcome `putOk`), and only on success install the new
list in memory. -/
def Put (putOk : Bool) (s : State) (miner : MinerInfo) : State × Option Err :=
  if Has s.miners miner.addr then (s, none)
  else
    let newMiner := s.miners ++ [miner]
    if putOk then
      ({ miners := newMiner, store := dsPut s.store actorKey (.minersBlob newMiner) }, none)
    else (s, some .putError)

/-- The field merge applied by `Set` to the matched record (lines 84-98):
each of the four mutable fields takes the incoming value exactly when it
is non-empty and differs from the current one.  The Go code performs four
sequential in-place assignments; they touch pairwise distinct fields and
each condition reads only original values of its own field, so the
simultaneous update is the same function. -/
def mergeInfo (cur incoming : MinerInfo) : MinerInfo :=
  { cur with
    sealer :=
      { listenAPI :=
          if incoming.sealer.listenAPI ≠ "" ∧ incoming.sealer.listenAPI ≠ cur.sealer.listenAPI
          then incoming.sealer.listenAPI else cur.sealer.listenAPI,
        token :=
          if incoming.sealer.token ≠ "" ∧ incoming.sealer.token ≠ cur.sealer.token
          then incoming.sealer.token else cur.sealer.token },
    wallet :=
      { listenAPI :=
          if incoming.wallet.listenAPI ≠ "" ∧ incoming.wallet.listenAPI ≠ cur.wallet.listenAPI
          then incoming.wallet.listenAPI else cur.wallet.listenAPI,
        token :=
          if incoming.wallet.token ≠ "" ∧ incoming.wallet.token ≠ cur.wallet.token
          then incoming.wallet.token else cur.wallet.token } }

/-- The `for k, addr := range m.miners` loop of `Set`: merge into the
first record whose address string matches, leaving the rest untouched;
`none` when no record matches (the loop falls through). -/
def setLoop (incoming : MinerInfo) : List MinerInfo → Option (List MinerInfo)
  | [] => none
  | cur :: rest =>
    if cur.addr.str = incoming.addr.str then some (mergeInfo cur incoming :: rest)
    else
      match setLoop incoming rest with
      | none => none
      | some rest' => some (cur :: rest')

/-- `(m *MinerManager) Set(miner)`: merge into the first matching record
(the merge mutates `m.miners` in place), then marshal the merged list and
write it; a write failure surfaces the error but the in-memory merge
stays.  No match: silent no-op, no write. -/
def Set (putOk : Bool) (s : State) (incoming : MinerInfo) : State × Option Err :=
  match setLoop incoming s.miners with
  | none => (s, none)
  | some miners' =>
    if putOk then
      ({ miners := miners', store := dsPut s.store actorKey (.minersBlob miners') }, none)
    else ({ miners := miners', store := s.store }, some .putError)

/-- `findAddress(addr, addrs)` (lines 147-155): returns true as soon as
some element of `addrs` has a string rendering different from `addr`. -/
def findAddress (addr : Address) (addrs : List Address) : Bool :=
  addrs.any (fun a => a.str != addr.str)

/-- `(m *MinerManager) Remove(addrs)`: keep the records for which
`findAddress` is false, marshal and write the survivors, and only on a
successful write install them in memory. -/
def Remove (putOk : Bool) (s : State) (addrs : List Address) : State × Option Err :=
  let newMiners := s.miners.filter (fun miner => !findAddress miner.addr addrs)
  if putOk then
    ({ miners := newMiners, store := dsPut s.store actorKey (.minersBlob newMiners) }, none)
  else (s, some .putError)

/-- `(m *MinerManager) SetDefault(addr)`: unconditionally write the
address encoding under the default key. -/
def SetDefault (putOk : Bool) (s : State) (addr : Address) : State × Option Err :=
  if putOk then ({ s with store := dsPut s.store defaultKey (.addrBlob addr) }, none)
  else (s, some .putError)

/-- `(m *MinerManager) Default()`: get the default key; on any get error
(`getFault` or key absent) fall back to the first record — failing with
`ErrNoDefault` when the list is empty, otherwise persisting and returning
`miners[0].Addr`; on get success decode the stored bytes. -/
def Default (getFault : Bool) (putOk : Bool) (s : State) : State × Except Err Address :=
  match (if getFault then none else dsGetOpt s.store defaultKey) with
  | none =>
    match s.miners with
    | [] => (s, .error .noDefault)
    | m0 :: _ =>
      match SetDefault putOk s m0.addr with
      | (s', none) => (s', .ok m0.addr)
      | (s', some e) => (s', .error e)
  | some b => (s, newFromBytes b)

/-- `(m *MinerManager) Count()`. -/
def Count (s : State) : Nat :=
  s.miners.length

deriving instance DecidableEq for Except

/-- Sample addresses used by the concrete witnesses below. -/
def aA : Address := ⟨"A", 0⟩

def aB : Address := ⟨"B", 1⟩

def aC : Address := ⟨"C", 2⟩

/-- A record with the given address and empty metadata. -/
def infoOf (a : Address) : MinerInfo := ⟨a, "", "", ⟨"", ""⟩, ⟨"", ""⟩⟩

/-- Registry holding records for addresses A, B, C over an empty store. -/
def st3 : State := ⟨[infoOf aA, infoOf aB, infoOf aC], []⟩

/-- `findAddress` is false exactly when every element of `addrs` renders
to the same string as `addr`. -/
theorem not_findAddress (addr : Address) (addrs : List Address) :
    (!findAddress addr addrs) = addrs.all (fun a => a.str == addr.str) := by
  induction addrs with
  | nil => rfl
  | cons a rest ih =>
    simp only [findAddress, List.any_cons, List.all_cons, Bool.not_or] at *
    rw [ih]
    cases h : a.str == addr.str <;> simp [bne, h]

/-- Claim C1 (code bug witness): on the list `[A, B, C]`, `Remove([A])`
with a successful store write keeps exactly the record for A and deletes
B and C, the opposite of the claimed survivors `{B, C}`: the membership
predicate `findAddress` is inverted. -/
theorem C1_remove_inverted :
    (Remove true st3 [aA]).1.miners = [infoOf aA]
    ∧ (Remove true st3 [aA]).1.miners.map (fun mi => mi.addr.str) ≠ ["B", "C"] := by
  decide

/-- Claim C9: as implemented, `Remove` keeps exactly the records whose
address string equals every address in the removal set: an empty set
keeps everything, a singleton `[A]` keeps exactly the records rendering
to `A`, and a set containing two distinct strings deletes every record
and persists the empty list under the actor key. -/
theorem C9_remove_as_implemented (s : State) (addrs : List Address) :
    ((Remove true s addrs).1.miners
        = s.miners.filter (fun mi => addrs.all (fun a => a.str == mi.addr.str)))
    ∧ (Remove true s []).1.miners = s.miners
    ∧ (∀ A, (Remove true s [A]).1.miners
        = s.miners.filter (fun mi => mi.addr.str == A.str))
    ∧ (∀ A B, A ∈ addrs → B ∈ addrs → A.str ≠ B.str →
        (Remove true s addrs).1.miners = []
        ∧ dsGetOpt (Remove true s addrs).1.store actorKey = some (.minersBlob [])) := by
  have hgen : ∀ (l : List Address),
      (Remove true s l).1.miners
        = s.miners.filter (fun mi => l.all (fun a => a.str == mi.addr.str)) := by
    intro l
    show s.miners.filter (fun mi => !findAddress mi.addr l) = _
    exact List.filter_congr (fun mi _ => not_findAddress mi.addr l)
  have hnil : ∀ A B, A ∈ addrs → B ∈ addrs → A.str ≠ B.str →
      s.miners.filter (fun mi => addrs.all (fun a => a.str == mi.addr.str)) = [] := by
    intro A B hA hB hne
    refine List.filter_eq_nil_iff.mpr (fun mi _ => ?_)
    intro hall
    have h1 := List.all_eq_true.mp hall A hA
    have h2 := List.all_eq_true.mp hall B hB
    exact hne ((beq_iff_eq.mp h1).trans (beq_iff_eq.mp h2).symm)
  refine ⟨hgen addrs, ?_, ?_, ?_⟩
  · rw [hgen]
    simp
  · intro A
    rw [hgen]
    refine List.filter_congr (fun mi _ => ?_)
    simp [List.all_cons, eq_comm]
  · intro A B hA hB hne
    constructor
    · rw [hgen]
      exact hnil A B hA hB hne
    · show dsGetOpt (dsPut s.store actorKey _) actorKey = _
      rw [dsPut]
      show (if actorKey = actorKey then _ else _) = _
      rw [if_pos rfl]
      have hm : s.miners.filter (fun miner => !findAddress miner.addr addrs) = [] :=
        calc s.miners.filter (fun miner => !findAddress miner.addr addrs)
            = s.miners.filter (fun mi => addrs.all (fun a => a.str == mi.addr.str)) :=
              List.filter_congr (fun mi _ => not_findAddress mi.addr addrs)
          _ = [] := hnil A B hA hB hne
      rw [hm]

/-- Claim C9 witness: the general theorem applied to the concrete registry
`[A, B, C]` with the two-element removal set `[A, B]`. -/
theorem C9_witness :
    aA ∈ [aA, aB] ∧ aB ∈ [aA, aB] ∧ aA.str ≠ aB.str
    ∧ (Remove true st3 [aA, aB]).1.miners = []
    ∧ dsGetOpt (Remove true st3 [aA, aB]).1.store actorKey = some (.minersBlob []) :=
  ⟨by decide, by decide, by decide,
    ((C9_remove_as_implemented st3 [aA, aB]).2.2.2 aA aB (by decide) (by decide)
      (by decide)).1,
    ((C9_remove_as_implemented st3 [aA, aB]).2.2.2 aA aB (by decide) (by decide)
      (by decide)).2⟩

/-- A fourth address, absent from `st3`. -/
def aD : Address := ⟨"D", 3⟩

/-- Claim C3: when the record's address is absent, `Put` with a failed
store write leaves the whole state (in-memory list and store) unchanged
and returns the error, while a successful write appends the record to the
in-memory list and returns no error. -/
theorem C3_put_atomic (s : State) (r : MinerInfo) (h : Has s.miners r.addr = false) :
    Put false s r = (s, some .putError)
    ∧ (Put true s r).1.miners = s.miners ++ [r]
    ∧ (Put true s r).2 = none := by
  simp [Put, h]

/-- Claim C3 witness: the theorem applied to the registry `[A, B, C]` and
a fresh record for address D. -/
theorem C3_witness :
    Has st3.miners (infoOf aD).addr = false
    ∧ (Put false st3 (infoOf aD) = (st3, some .putError)
       ∧ (Put true st3 (infoOf aD)).1.miners = st3.miners ++ [infoOf aD]
       ∧ (Put true st3 (infoOf aD)).2 = none) :=
  ⟨by decide, C3_put_atomic st3 (infoOf aD) (by decide)⟩

/-- Claim C4: `Put` on an already-present address is a full no-op that
reports success (state, store included, unchanged); after a first
successful `Put` of a fresh record, a second `Put` of the same record
changes nothing and the list holds exactly one record for that address. -/
theorem C4_put_idempotent (s : State) (r : MinerInfo) :
    (Has s.miners r.addr = true → ∀ p, Put p s r = (s, none))
    ∧ (Has s.miners r.addr = false →
        Put true (Put true s r).1 r = ((Put true s r).1, none)
        ∧ ((Put true s r).1.miners.filter
            (fun mi => mi.addr.str == r.addr.str)).length = 1) := by
  constructor
  · intro h p
    simp [Put, h]
  · intro h
    have h1 : (Put true s r).1.miners = s.miners ++ [r] := by simp [Put, h]
    have hhas : Has (Put true s r).1.miners r.addr = true := by
      rw [h1]
      simp [Has]
    have hnoop : Put true (Put true s r).1 r = ((Put true s r).1, none) := by
      generalize (Put true s r).1 = s1 at hhas ⊢
      simp [Put, hhas]
    refine ⟨hnoop, ?_⟩
    simp only [Has] at h
    have h0 : s.miners.filter (fun mi => mi.addr.str == r.addr.str) = [] :=
      List.filter_eq_nil_iff.mpr (fun mi hmi => by
        have := List.any_eq_false.mp h mi hmi
        simpa using this)
    rw [h1, List.filter_append, h0]
    simp

/-- Claim C4 witness: the second branch of the theorem applied to the
registry `[A, B, C]` and a fresh record for address D. -/
theorem C4_witness :
    Has st3.miners (infoOf aD).addr = false
    ∧ (Put true (Put true st3 (infoOf aD)).1 (infoOf aD)
          = ((Put true st3 (infoOf aD)).1, none)
       ∧ ((Put true st3 (infoOf aD)).1.miners.filter
            (fun mi => mi.addr.str == (infoOf aD).addr.str)).length = 1) :=
  ⟨by decide, (C4_put_idempotent st3 (infoOf aD)).2 (by decide)⟩

/-- On a list with no record matching the incoming address, the `Set`
loop falls through. -/
theorem setLoop_none (incoming : MinerInfo) (l : List MinerInfo)
    (h : ∀ mi ∈ l, mi.addr.str ≠ incoming.addr.str) :
    setLoop incoming l = none := by
  induction l with
  | nil => rfl
  | cons cur rest ih =>
    have hcur := h cur (List.mem_cons_self cur rest)
    have ih' := ih (fun mi hmi => h mi (List.mem_cons_of_mem cur hmi))
    simp only [setLoop]
    rw [if_neg hcur, ih']

/-- The `Set` loop on `pre ++ cur :: post` with no match in `pre` and a
match at `cur` merges exactly `cur`, keeping everything else in place. -/
theorem setLoop_found (incoming : MinerInfo) (pre post : List MinerInfo) (cur : MinerInfo)
    (hpre : ∀ mi ∈ pre, mi.addr.str ≠ incoming.addr.str)
    (hcur : cur.addr.str = incoming.addr.str) :
    setLoop incoming (pre ++ cur :: post)
      = some (pre ++ mergeInfo cur incoming :: post) := by
  induction pre with
  | nil =>
    simp only [List.nil_append, setLoop]
    rw [if_pos hcur]
  | cons a rest ih =>
    have ha := hpre a (List.mem_cons_self a rest)
    have ih' := ih (fun mi hmi => hpre mi (List.mem_cons_of_mem a hmi))
    simp only [List.cons_append, setLoop, List.append_eq]
    rw [if_neg ha, ih']

/-- Claim C2: when `Set` finds the record matching the incoming address
(first match, by canonical string), the stored record is replaced by the
merge in place; the merge takes each of the four mutable fields from the
incoming record exactly when that incoming value is non-empty and differs
from the current one, and leaves the address and the `id` and `name`
labels of the stored record untouched. -/
theorem C2_set_merge (p : Bool) (s : State) (pre post : List MinerInfo)
    (cur incoming : MinerInfo)
    (hmem : s.miners = pre ++ cur :: post)
    (hpre : ∀ mi ∈ pre, mi.addr.str ≠ incoming.addr.str)
    (hcur : cur.addr.str = incoming.addr.str) :
    (Set p s incoming).1.miners = pre ++ mergeInfo cur incoming :: post
    ∧ (mergeInfo cur incoming).addr = cur.addr
    ∧ (mergeInfo cur incoming).id = cur.id
    ∧ (mergeInfo cur incoming).name = cur.name
    ∧ (mergeInfo cur incoming).sealer.listenAPI
        = (if incoming.sealer.listenAPI ≠ "" ∧ incoming.sealer.listenAPI ≠ cur.sealer.listenAPI
           then incoming.sealer.listenAPI else cur.sealer.listenAPI)
    ∧ (mergeInfo cur incoming).sealer.token
        = (if incoming.sealer.token ≠ "" ∧ incoming.sealer.token ≠ cur.sealer.token
           then incoming.sealer.token else cur.sealer.token)
    ∧ (mergeInfo cur incoming).wallet.listenAPI
        = (if incoming.wallet.listenAPI ≠ "" ∧ incoming.wallet.listenAPI ≠ cur.wallet.listenAPI
           then incoming.wallet.listenAPI else cur.wallet.listenAPI)
    ∧ (mergeInfo cur incoming).wallet.token
        = (if incoming.wallet.token ≠ "" ∧ incoming.wallet.token ≠ cur.wallet.token
           then incoming.wallet.token else cur.wallet.token) := by
  have hset : setLoop incoming s.miners = some (pre ++ mergeInfo cur incoming :: post) := by
    rw [hmem]
    exact setLoop_found incoming pre post cur hpre hcur
  refine ⟨?_, rfl, rfl, rfl, rfl, rfl, rfl, rfl⟩
  cases p <;> simp [Set, hset]

/-- Claim C7: `Set` with an address matching no record is a silent no-op:
no error, the in-memory list and the store are both left unchanged. -/
theorem C7_set_noop (s : State) (incoming : MinerInfo)
    (h : ∀ mi ∈ s.miners, mi.addr.str ≠ incoming.addr.str) (p : Bool) :
    Set p s incoming = (s, none) := by
  simp [Set, setLoop_none incoming s.miners h]

/-- Claim C7 witness: the theorem applied to the registry `[A, B, C]` and
an incoming record for the absent address D. -/
theorem C7_witness :
    (∀ mi ∈ st3.miners, mi.addr.str ≠ (infoOf aD).addr.str)
    ∧ Set true st3 (infoOf aD) = (st3, none) :=
  ⟨by decide, C7_set_noop st3 (infoOf aD) (by decide) true⟩

/-- Claim C8: when `Set` finds a matching record and the store write
fails, the error is returned but the merged record stays in the in-memory
list (no rollback) while the store is unchanged. -/
theorem C8_set_no_rollback (s : State) (pre post : List MinerInfo)
    (cur incoming : MinerInfo)
    (hmem : s.miners = pre ++ cur :: post)
    (hpre : ∀ mi ∈ pre, mi.addr.str ≠ incoming.addr.str)
    (hcur : cur.addr.str = incoming.addr.str) :
    Set false s incoming
      = ({ miners := pre ++ mergeInfo cur incoming :: post, store := s.store },
          some .putError) := by
  have hset : setLoop incoming s.miners = some (pre ++ mergeInfo cur incoming :: post) := by
    rw [hmem]
    exact setLoop_found incoming pre post cur hpre hcur
  simp [Set, hset]

/-- An existing record for address A with all six metadata fields set. -/
def curW : MinerInfo := ⟨aA, "id0", "name0", ⟨"sl0", "T1"⟩, ⟨"wl0", "wt0"⟩⟩

/-- An incoming record whose address renders to the same string as `aA`
through a different representation; its sealer endpoint and wallet token
are empty, the other two mutable fields are fresh, and its labels differ
from the stored ones. -/
def incW : MinerInfo := ⟨⟨"A", 5⟩, "idNew", "nameNew", ⟨"", "T2"⟩, ⟨"wl2", ""⟩⟩

/-- Registry holding a non-matching record for B followed by `curW`. -/
def stW : State := ⟨[infoOf aB, curW], []⟩

/-- Claim C2 witness: the theorem applied to `stW` and `incW`; the merged
record keeps the empty-field values `"sl0"` and `"wt0"` and takes the
fresh values `"T2"` and `"wl2"`. -/
theorem C2_witness :
    stW.miners = [infoOf aB] ++ curW :: []
    ∧ (∀ mi ∈ [infoOf aB], mi.addr.str ≠ incW.addr.str)
    ∧ curW.addr.str = incW.addr.str
    ∧ ((Set true stW incW).1.miners = [infoOf aB] ++ mergeInfo curW incW :: []
       ∧ (mergeInfo curW incW).addr = curW.addr
       ∧ (mergeInfo curW incW).id = curW.id
       ∧ (mergeInfo curW incW).name = curW.name
       ∧ (mergeInfo curW incW).sealer.listenAPI
           = (if incW.sealer.listenAPI ≠ "" ∧ incW.sealer.listenAPI ≠ curW.sealer.listenAPI
              then incW.sealer.listenAPI else curW.sealer.listenAPI)
       ∧ (mergeInfo curW incW).sealer.token
           = (if incW.sealer.token ≠ "" ∧ incW.sealer.token ≠ curW.sealer.token
              then incW.sealer.token else curW.sealer.token)
       ∧ (mergeInfo curW incW).wallet.listenAPI
           = (if incW.wallet.listenAPI ≠ "" ∧ incW.wallet.listenAPI ≠ curW.wallet.listenAPI
              then incW.wallet.listenAPI else curW.wallet.listenAPI)
       ∧ (mergeInfo curW incW).wallet.token
           = (if incW.wallet.token ≠ "" ∧ incW.wallet.token ≠ curW.wallet.token
              then incW.wallet.token else curW.wallet.token)) :=
  ⟨rfl, by decide, by decide,
    C2_set_merge true stW [infoOf aB] [] curW incW rfl (by decide) (by decide)⟩

/-- Claim C8 witness: the theorem applied to `stW` and `incW` with a
failing store write: the merged record is kept in memory, the store is
untouched, and the error is surfaced. -/
theorem C8_witness :
    stW.miners = [infoOf aB] ++ curW :: []
    ∧ (∀ mi ∈ [infoOf aB], mi.addr.str ≠ incW.addr.str)
    ∧ curW.addr.str = incW.addr.str
    ∧ Set false stW incW
        = ({ miners := [infoOf aB] ++ mergeInfo curW incW :: [], store := stW.store },
            some .putError) :=
  ⟨rfl, by decide, by decide,
    C8_set_no_rollback stW [infoOf aB] [] curW incW rfl (by decide) (by decide)⟩

/-- Claim C5: `Default` returns a stored default address without touching
any state; with no stored default it fails with `ErrNoDefault` on an
empty registry, and on a non-empty registry it persists the first
record's address under the default key and returns it, so that a
subsequent read of that key yields the address encoding. -/
theorem C5_default (s : State) (p : Bool) :
    (∀ a, dsGetOpt s.store defaultKey = some (.addrBlob a) →
        Default false p s = (s, .ok a))
    ∧ (dsGetOpt s.store defaultKey = none → s.miners = [] →
        Default false p s = (s, .error .noDefault))
    ∧ (∀ m0 rest, dsGetOpt s.store defaultKey = none → s.miners = m0 :: rest →
        Default false true s
          = ({ s with store := dsPut s.store defaultKey (.addrBlob m0.addr) }, .ok m0.addr)
        ∧ dsGetOpt (Default false true s).1.store defaultKey = some (.addrBlob m0.addr)) := by
  refine ⟨?_, ?_, ?_⟩
  · intro a ha
    simp [Default, ha, newFromBytes]
  · intro hget hm
    simp [Default, hget, hm]
  · intro m0 rest hget hm
    constructor
    · simp [Default, hget, hm, SetDefault]
    · simp [Default, hget, hm, SetDefault, dsPut, dsGetOpt]

/-- Claim C5 witness: the registry `[A, B, C]` over an empty store has no
persisted default; `Default` returns A and persists its encoding. -/
theorem C5_witness :
    dsGetOpt st3.store defaultKey = none
    ∧ st3.miners = infoOf aA :: [infoOf aB, infoOf aC]
    ∧ (Default false true st3
        = ({ st3 with store := dsPut st3.store defaultKey (.addrBlob aA) }, .ok aA)
       ∧ dsGetOpt (Default false true st3).1.store defaultKey = some (.addrBlob aA)) :=
  ⟨rfl, rfl, (C5_default st3 true).2.2 (infoOf aA) [infoOf aB, infoOf aC] rfl rfl⟩

/-- Claim C6: construction with an absent record-list key yields the
empty registry with no error; a present but unparsable blob (an address
encoding instead of a record list) fails with a decode error. -/
theorem C6_construction (store : Store) :
    (dsGetOpt store actorKey = none → NewMinerManger false store = .ok [])
    ∧ (∀ a, dsGetOpt store actorKey = some (.addrBlob a) →
        NewMinerManger false store = .error .decodeError) := by
  constructor
  · intro h
    simp [NewMinerManger, h]
  · intro a h
    simp [NewMinerManger, h, unmarshalMiners]

/-- Claim C6 witness: the theorem applied to the empty store and to a
store whose actor key holds an address encoding. -/
theorem C6_witness :
    dsGetOpt ([] : Store) actorKey = none
    ∧ NewMinerManger false [] = .ok []
    ∧ dsGetOpt [(actorKey, Blob.addrBlob aA)] actorKey = some (.addrBlob aA)
    ∧ NewMinerManger false [(actorKey, Blob.addrBlob aA)] = .error .decodeError :=
  ⟨rfl, (C6_construction []).1 rfl, by decide,
    (C6_construction [(actorKey, Blob.addrBlob aA)]).2 aA (by decide)⟩

/-- Claim C10: a faulting get on the default key (any error, even with
the key present in the store) sends `Default` down the materialization
path — `ErrNoDefault` on an empty registry, otherwise persist-and-return
the first record's address — and the get's own error never reaches the
caller. -/
theorem C10_default_get_error (s : State) (p : Bool) :
    (s.miners = [] → Default true p s = (s, .error .noDefault))
    ∧ (∀ m0 rest, s.miners = m0 :: rest →
        Default true true s
          = ({ s with store := dsPut s.store defaultKey (.addrBlob m0.addr) }, .ok m0.addr))
    ∧ (Default true p s).2 ≠ .error .ioError := by
  refine ⟨?_, ?_, ?_⟩
  · intro hm
    simp [Default, hm]
  · intro m0 rest hm
    simp [Default, hm, SetDefault]
  · cases hm : s.miners with
    | nil => simp [Default, hm]
    | cons m0 rest => cases p <;> simp [Default, hm, SetDefault]

/-- Registry with one record for B and a stored default pointing at C,
used to exercise the faulting-get path with the key present. -/
def stC10 : State := ⟨[infoOf aB], [(defaultKey, Blob.addrBlob aC)]⟩

/-- Claim C10 witness: on `stC10` a faulting get ignores the stored
default for C and materializes B, the first record's address. -/
theorem C10_witness :
    stC10.miners = infoOf aB :: []
    ∧ Default true true stC10
        = ({ stC10 with store := dsPut stC10.store defaultKey (.addrBlob aB) }, .ok aB) :=
  ⟨rfl, (C10_default_get_error stC10 true).2.1 (infoOf aB) [] rfl⟩

end VenusMiner
